/-
Verification of the file-migration engine (catalog store, placement engine,
migration orchestrator, verification) against its specification.

The embedding models:
  * the catalog table `repl_AV_ATF` as a list of rows (`FileRecord`);
    SQL queries (`src/db.py`) become pure functions over that list, run in
    the fault-free regime (no connection or query error is injected unless
    a definition says so explicitly);
  * the filesystem as a finite association list from paths (strings joined
    with "/") to file contents (`src/file_ops.py`); the md5 digest of a
    file is modelled as the file's content itself (the claims only ever
    compare digests of files for equality, and the digest is a function of
    the content, so this abstraction is faithful);
  * the orchestrator (`src/migrator.py`) as explicit state passing over
    the catalog, the filesystem and the in-memory `MigrationStats`.
-/
import Mathlib

namespace FileMigrate

/-! ### Dates (the `dt` column) -/

/-- A calendar date, the value of the `dt` column of `repl_AV_ATF`. -/
structure Date where
  year : Nat
  month : Nat
  day : Nat
deriving DecidableEq, Repr

/-- Strict lexicographic order on dates: the order `ORDER BY dt ASC` uses. -/
def dateLtB (a b : Date) : Bool :=
  decide (a.year < b.year) ||
    (a.year == b.year &&
      (decide (a.month < b.month) ||
        (a.month == b.month && decide (a.day < b.day))))

/-! ### Catalog rows and queries (`src/db.py`) -/

/-- One row of `repl_AV_ATF`.  The audit columns `created_at`/`updated_at`
are timestamps maintained by `NOW()`; no claim depends on them, so they are
not carried.  `dtmoove` is the move timestamp, abstracted to a `Nat`. -/
structure FileRecord where
  IDFL : String
  dt : Date
  filename : String
  ismooved : Bool
  dtmoove : Option Nat
deriving DecidableEq, Repr

/-- The catalog table: the rows of `repl_AV_ATF`. -/
abbrev Catalog := List FileRecord

/-- Strict lexicographic order on strings by code point, the collation
model for `ORDER BY IDFL ASC`. -/
def strLtB : List Char → List Char → Bool
  | [], [] => false
  | [], _ :: _ => true
  | _ :: _, [] => false
  | a :: as, b :: bs =>
      if a.toNat < b.toNat then true
      else if b.toNat < a.toNat then false
      else strLtB as bs

/-- The sort key of `ORDER BY dt ASC, IDFL ASC` as a boolean total preorder. -/
def recLeB (a b : FileRecord) : Bool :=
  dateLtB a.dt b.dt ||
    (a.dt == b.dt && (strLtB a.IDFL.data b.IDFL.data || a.IDFL == b.IDFL))

/-- `recLeB` as a relation, for use with `List.insertionSort`. -/
def RecLE (a b : FileRecord) : Prop := recLeB a b = true

instance : DecidableRel RecLE := fun a b => instDecidableEqBool (recLeB a b) true

/-- `Database.get_files_to_move` (src/db.py:169):
`SELECT ... FROM repl_AV_ATF WHERE ismooved = 0 ORDER BY dt ASC, IDFL ASC
LIMIT batch_size`.  The `ORDER BY` is modelled by a (stable) sort with the
same key; `LIMIT` by `take`. -/
def getFilesToMove (table : Catalog) (batchSize : Nat) : List FileRecord :=
  ((table.filter (fun r => r.ismooved == false)).insertionSort RecLE).take batchSize

/-- `Database.mark_file_moved` (src/db.py:234):
`UPDATE repl_AV_ATF SET ismooved = 1, dtmoove = %s, updated_at = NOW()
WHERE IDFL = %s AND ismooved = 0`, then `return True`; `False` is returned
only when the query itself raises `DatabaseQueryError`.  In the fault-free
regime the query never raises, so the boolean is always `true`: the
function does not inspect the number of rows the `UPDATE` matched. -/
def markFileMoved (table : Catalog) (idfl : String) (dtmoove : Nat) :
    Catalog × Bool :=
  (table.map (fun r =>
      if r.IDFL == idfl && r.ismooved == false then
        { r with ismooved := true, dtmoove := some dtmoove }
      else r),
   true)

/-! ### Filesystem model and the placement engine (`src/file_ops.py`) -/

/-- The filesystem: a finite association list from absolute paths to file
contents.  Directories are implicit (creation by `mkdir` has no observable
effect on the claims, which only inspect files). -/
abbrev Fs := List (String × String)

/-- Look up the content of the file at path `p` (`Path.exists` / `open`). -/
def fsGet : Fs → String → Option String
  | [], _ => none
  | e :: rest, p => if e.1 = p then some e.2 else fsGet rest p

/-- `Path.exists()` on a file path. -/
def fsExists (fs : Fs) (p : String) : Bool :=
  (fsGet fs p).isSome

/-- Remove the entry at path `p`. -/
def fsErase : Fs → String → Fs
  | [], _ => []
  | e :: rest, p => if e.1 = p then fsErase rest p else e :: fsErase rest p

/-- Create/overwrite the file at path `p` with content `c`. -/
def fsInsert (fs : Fs) (p : String) (c : String) : Fs :=
  (p, c) :: fsErase fs p

/-- The occupied paths of the filesystem, the domain `Path.exists` probes. -/
def fsPaths (fs : Fs) : List String :=
  fs.map (fun e => e.1)

/-- Zero-pad the decimal representation of `n` to `width` characters, the
padding `strftime` applies to `%Y`, `%m` and `%d`. -/
def padZeros (width : Nat) (n : Nat) : String :=
  String.mk (List.replicate (width - (Nat.repr n).length) '0') ++ Nat.repr n

/-- `dt.strftime("%Y%m%d")`: four-digit year, two-digit month and day. -/
def strftimeYYYYMMDD (d : Date) : String :=
  padZeros 4 d.year ++ padZeros 2 d.month ++ padZeros 2 d.day

/-- `FileOps._get_date_directory` (src/file_ops.py:62):
`self.new_base_path / dt.strftime("%Y%m%d")`. -/
def getDateDirectory (newBase : String) (dt : Date) : String :=
  newBase ++ "/" ++ strftimeYYYYMMDD dt

/-- Split a character list at its last `'.'`: `some (before, after)` when a
dot is present, `none` otherwise. -/
def rsplitDot : List Char → Option (List Char × List Char)
  | [] => none
  | c :: rest =>
      match rsplitDot rest with
      | some se => some (c :: se.1, se.2)
      | none => if c = '.' then some ([], rest) else none

/-- The split `filename.rsplit('.', 1)` of `FileOps._get_unique_filename`
(src/file_ops.py:153): stem before the last dot, and the extension
(including its dot) after it; the whole name and an empty extension when no
dot is present. -/
def splitExt (filename : String) : String × String :=
  match rsplitDot filename.data with
  | none => (filename, "")
  | some se => (String.mk se.1, "." ++ String.mk se.2)

/-- The probe path `directory / f"{base_name}_{counter}{extension}"` of
`FileOps._get_unique_filename` (src/file_ops.py:163). -/
def probePath (directory stem ext : String) (counter : Nat) : String :=
  directory ++ "/" ++ (stem ++ "_" ++ Nat.repr counter ++ ext)

/-- The `while True` probe loop of `FileOps._get_unique_filename`
(src/file_ops.py:161): return the first free probe path, incrementing the
counter.  The loop is given the fuel `occ.length + 1`, which is proved
sufficient (`probeLoop_first_free` below shows the fallback at fuel
zero is never the result). -/
def probeLoop (occ : List String) (directory stem ext : String) :
    Nat → Nat → String
  | 0, counter => probePath directory stem ext counter
  | fuel + 1, counter =>
      if occ.contains (probePath directory stem ext counter) then
        probeLoop occ directory stem ext fuel (counter + 1)
      else
        probePath directory stem ext counter

/-- `FileOps._get_unique_filename` (src/file_ops.py:137): return
`directory / filename` if free, otherwise probe `stem_1.ext, stem_2.ext, …`
until a free path is found.  `occ` is the list of occupied paths the
`Path.exists()` calls consult. -/
def getUniqueFilename (occ : List String) (directory filename : String) : String :=
  if occ.contains (directory ++ "/" ++ filename) then
    let se := splitExt filename
    probeLoop occ directory se.1 se.2 (occ.length + 1) 1
  else
    directory ++ "/" ++ filename

/-- `FileOps.move_file` (src/file_ops.py:93): fail (raise) when
`base/idfl` does not exist; otherwise place the file at
`new_base/YYYYMMDD/idfl`, diverting to `_get_unique_filename` when that
path is occupied, and perform the move (`shutil.move`).  Returns the final
path together with the updated filesystem. -/
def moveFile (fs : Fs) (base newBase : String) (idfl : String) (dt : Date) :
    Option (String × Fs) :=
  let sourcePath := base ++ "/" ++ idfl
  match fsGet fs sourcePath with
  | none => none
  | some content =>
      let targetDir := getDateDirectory newBase dt
      let targetPath :=
        if fsExists fs (targetDir ++ "/" ++ idfl) then
          getUniqueFilename (fsPaths fs) targetDir idfl
        else
          targetDir ++ "/" ++ idfl
      some (targetPath, fsInsert (fsErase fs sourcePath) targetPath content)

/-- The location rule shared by `FileOps.file_exists`, `get_file_size` and
`get_file_hash`: the partitioned path when `ismooved`, the flat path
otherwise. -/
def resolvePath (base newBase : String) (idfl : String) (ismooved : Bool)
    (dt : Date) : String :=
  if ismooved then getDateDirectory newBase dt ++ "/" ++ idfl
  else base ++ "/" ++ idfl

/-- `FileOps.file_exists` (src/file_ops.py:252). -/
def fileExists (fs : Fs) (base newBase : String) (idfl : String)
    (ismooved : Bool) (dt : Date) : Bool :=
  fsExists fs (resolvePath base newBase idfl ismooved dt)

/-- `FileOps.get_file_size` (src/file_ops.py:281): the byte size of the
file at the resolved location, `none` when absent.  A content is a string,
its size the string's length. -/
def getFileSize (fs : Fs) (base newBase : String) (idfl : String)
    (ismooved : Bool) (dt : Date) : Option Nat :=
  (fsGet fs (resolvePath base newBase idfl ismooved dt)).map String.length

/-- `FileOps.get_file_hash` (src/file_ops.py:311): the digest of the file
at the resolved location, `none` when absent.  The md5 digest is modelled
as the content itself (a function of the content; the claims only compare
digests for equality). -/
def getFileHash (fs : Fs) (base newBase : String) (idfl : String)
    (ismooved : Bool) (dt : Date) : Option String :=
  fsGet fs (resolvePath base newBase idfl ismooved dt)

/-! ### The migration orchestrator (`src/migrator.py`) -/

/-- The configuration the orchestrator consumes: the flat base directory,
the partitioned base directory and the configured batch size. -/
structure Config where
  base : String
  newBase : String
  batchSize : Nat
deriving Repr

/-- The mutable world the orchestrator acts on: the catalog table and the
filesystem. -/
structure MigState where
  table : Catalog
  fs : Fs
deriving Repr

/-- `MigrationStats` (src/migrator.py:30): the in-memory counters of one
run.  An error entry is `(file_id, error message, timestamp)` as built by
`MigrationStats.add_error`. -/
structure MigrationStats where
  totalFiles : Nat
  processedFiles : Nat
  successfulFiles : Nat
  failedFiles : Nat
  batchCount : Nat
  errors : List (String × String × Nat)
deriving Repr

/-- The counters of a fresh `MigrationStats()`. -/
def initStats : MigrationStats :=
  { totalFiles := 0, processedFiles := 0, successfulFiles := 0,
    failedFiles := 0, batchCount := 0, errors := [] }

/-- `MigrationStats.add_error` (src/migrator.py:44). -/
def addError (stats : MigrationStats) (fileId : String) (errMsg : String)
    (now : Nat) : MigrationStats :=
  { stats with errors := stats.errors ++ [(fileId, errMsg, now)] }

/-- `Migrator._migrate_single_file` (src/migrator.py:187): check the
source exists in the flat layout, hash it, move it, hash the destination,
fail on an integrity mismatch, otherwise mark the row moved.  Every raised
exception is caught by the method's own `except Exception` and turned into
`False`, so the result is a plain boolean.  `now` is `datetime.now()`
passed to `mark_file_moved`. -/
def migrateSingleFile (cfg : Config) (s : MigState) (r : FileRecord)
    (now : Nat) : Bool × MigState :=
  if fileExists s.fs cfg.base cfg.newBase r.IDFL false r.dt = false then
    (false, s)
  else
    let oldHash := getFileHash s.fs cfg.base cfg.newBase r.IDFL false r.dt
    match moveFile s.fs cfg.base cfg.newBase r.IDFL r.dt with
    | none => (false, s)
    | some (_, fs') =>
        let newHash := getFileHash fs' cfg.base cfg.newBase r.IDFL true r.dt
        if oldHash.isSome && newHash.isSome && oldHash ≠ newHash then
          (false, { s with fs := fs' })
        else
          let marked := markFileMoved s.table r.IDFL now
          if marked.2 then (true, { table := marked.1, fs := fs' })
          else (false, { s with fs := fs' })

/-- The per-record loop of `Migrator.migrate_batch` (src/migrator.py:161):
run each record through `_migrate_single_file`, tallying
`(processed, successful, failed)`.  The loop's `except` branch (which would
call `stats.add_error`) is unreachable because `_migrate_single_file`
catches every exception internally and returns a boolean instead. -/
def migrateStep (cfg : Config) (now : Nat)
    (acc : MigState × Nat × Nat × Nat) (r : FileRecord) :
    MigState × Nat × Nat × Nat :=
  let step := migrateSingleFile cfg acc.1 r now
  (step.2, acc.2.1 + 1,
   acc.2.2.1 + (if step.1 then 1 else 0),
   acc.2.2.2 + (if step.1 then 0 else 1))

def migrateRecords (cfg : Config) (files : List FileRecord) (s : MigState)
    (now : Nat) : MigState × Nat × Nat × Nat :=
  files.foldl (migrateStep cfg now) (s, 0, 0, 0)

/-- `Migrator.migrate_batch` (src/migrator.py:131) in the fault-free
regime: bump the batch counter, fetch a batch, migrate each record, fold
the tallies into the stats, and return `(processed, successful, failed)`.
The run's error list is never touched on this path. -/
def migrateBatch (cfg : Config) (s : MigState) (stats : MigrationStats)
    (batchSize : Nat) (now : Nat) :
    (Nat × Nat × Nat) × MigState × MigrationStats :=
  let stats1 := { stats with batchCount := stats.batchCount + 1 }
  let files := getFilesToMove s.table batchSize
  if files.isEmpty then ((0, 0, 0), s, stats1)
  else
    let res := migrateRecords cfg files s now
    ((res.2.1, res.2.2.1, res.2.2.2), res.1,
     { stats1 with
        processedFiles := stats1.processedFiles + res.2.1,
        successfulFiles := stats1.successfulFiles + res.2.2.1,
        failedFiles := stats1.failedFiles + res.2.2.2 })

/-- `Migrator.migrate_batch` with its one run-fatal path made explicit:
when the batch-level catalog fetch itself fails
(`get_files_to_move` raising `DatabaseQueryError`), the surrounding
`try`/`except` re-raises as `MigrationError`; nothing else on the batch
path raises. -/
def migrateBatchExc (fetchFails : Bool) (cfg : Config) (s : MigState)
    (stats : MigrationStats) (batchSize : Nat) (now : Nat) :
    Except String ((Nat × Nat × Nat) × MigState × MigrationStats) :=
  if fetchFails then Except.error "MigrationError: query failed"
  else Except.ok (migrateBatch cfg s stats batchSize now)

/-- Python truthiness of the `max_files: Optional[int]` argument of
`Migrator.migrate_all`: `None` and `0` are both falsy. -/
def capTruthy (maxFiles : Option Nat) : Bool :=
  match maxFiles with
  | none => false
  | some n => n != 0

/-- The `while True` loop of `Migrator.migrate_all` (src/migrator.py:256):
break when a truthy cap is reached; take the batch size to `min(batch,
remaining)` under a truthy cap; migrate a batch; break when it processed
nothing.  `fuel` bounds the number of iterations (the Python loop has no
such bound; every theorem below holds for every fuel). -/
def migrateAllLoop (cfg : Config) (maxFiles : Option Nat) :
    Nat → MigState → MigrationStats → Nat → MigState × MigrationStats
  | 0, s, stats, _ => (s, stats)
  | fuel + 1, s, stats, now =>
      if capTruthy maxFiles && decide (maxFiles.getD 0 ≤ stats.processedFiles) then
        (s, stats)
      else
        let batchSize :=
          if capTruthy maxFiles then
            min cfg.batchSize (maxFiles.getD 0 - stats.processedFiles)
          else cfg.batchSize
        let step := migrateBatch cfg s stats batchSize now
        if step.1.1 == 0 then (step.2.1, step.2.2)
        else migrateAllLoop cfg maxFiles fuel step.2.1 step.2.2 now

/-- `Migrator.migrate_all` (src/migrator.py:233) in the fault-free regime:
set `total_files` to the unmoved count (as `initialize` does from
`get_migration_statistics`) and run the batch loop on a fresh
`MigrationStats`. -/
def migrateAll (cfg : Config) (maxFiles : Option Nat) (fuel : Nat)
    (s : MigState) (now : Nat) : MigState × MigrationStats :=
  let stats :=
    { initStats with
        totalFiles := (s.table.filter (fun r => r.ismooved == false)).length }
  migrateAllLoop cfg maxFiles fuel s stats now

/-- The result record of `Migrator.verify_migration`. -/
structure VerifyResult where
  verified : Nat
  errors : Nat
  totalChecked : Nat
  details : List String
deriving DecidableEq, Repr

/-- The per-record check of `Migrator.verify_migration`
(src/migrator.py:387): existence at the partitioned location, then
non-zero size. -/
def verifyOne (cfg : Config) (fs : Fs) (acc : VerifyResult)
    (r : FileRecord) : VerifyResult :=
  if fileExists fs cfg.base cfg.newBase r.IDFL true r.dt = false then
    { acc with errors := acc.errors + 1,
               details := acc.details ++
                 ["Файл " ++ r.IDFL ++ " не найден в новой структуре"] }
  else
    match getFileSize fs cfg.base cfg.newBase r.IDFL true r.dt with
    | none =>
        { acc with errors := acc.errors + 1,
                   details := acc.details ++
                     ["Файл " ++ r.IDFL ++ " имеет нулевой размер"] }
    | some size =>
        if size == 0 then
          { acc with errors := acc.errors + 1,
                     details := acc.details ++
                       ["Файл " ++ r.IDFL ++ " имеет нулевой размер"] }
        else
          { acc with verified := acc.verified + 1 }

/-- `Migrator.verify_migration` (src/migrator.py:362): fetch via
`get_files_to_move(sample_size)`, keep the records with `ismooved` set,
and check each of the first `sample_size` of them; no mutation. -/
def verifyMigration (cfg : Config) (s : MigState) (sampleSize : Nat) :
    VerifyResult :=
  let movedFiles := (getFilesToMove s.table sampleSize).filter
      (fun f => f.ismooved)
  if movedFiles.isEmpty then
    { verified := 0, errors := 0, totalChecked := 0, details := [] }
  else
    let checked := movedFiles.take sampleSize
    let res := checked.foldl (verifyOne cfg s.fs)
      { verified := 0, errors := 0, totalChecked := 0, details := [] }
    { res with totalChecked := checked.length }

/-- The decimal value of a digit character, left inverse of
`Nat.digitChar` on digits; used to prove `Nat.repr` injective. -/
def chDigitVal (c : Char) : Nat := c.toNat - 48

/-- Evaluate a most-significant-first decimal digit string back to a
number; used to prove `Nat.repr` injective. -/
def valDigits (l : List Char) : Nat :=
  l.foldl (fun a c => a * 10 + chDigitVal c) 0

/-! ### Helper lemmas about the filesystem -/

theorem fsGet_fsErase (fs : Fs) (p q : String) :
    fsGet (fsErase fs p) q = if q = p then none else fsGet fs q := by
  induction fs with
  | nil => simp [fsGet, fsErase]
  | cons e rest ih =>
      simp only [fsErase]
      by_cases hep : e.1 = p
      · rw [if_pos hep, ih]
        by_cases hq : q = p
        · simp [hq]
        · have : ¬(e.1 = q) := fun hc => hq ((hc.symm).trans hep)
          simp [hq, fsGet, this]
      · rw [if_neg hep]
        by_cases heq : e.1 = q
        · have hqp : ¬(q = p) := fun hc => hep (heq.trans hc)
          simp [fsGet, heq, hqp]
        · simp only [fsGet, if_neg heq, ih]

theorem fsGet_fsInsert (fs : Fs) (p q c : String) :
    fsGet (fsInsert fs p c) q = if q = p then some c else fsGet fs q := by
  by_cases h : q = p
  · subst h; simp [fsGet, fsInsert]
  · have hpq : ¬(p = q) := fun hc => h hc.symm
    simp only [fsInsert, fsGet, if_neg hpq, if_neg h, fsGet_fsErase]

theorem fsGet_mem_paths (fs : Fs) (p c : String)
    (h : fsGet fs p = some c) : p ∈ fsPaths fs := by
  induction fs with
  | nil => simp [fsGet] at h
  | cons e rest ih =>
      simp only [fsGet] at h
      by_cases hep : e.1 = p
      · simp [fsPaths, hep]
      · rw [if_neg hep] at h
        simp only [fsPaths, List.map_cons, List.mem_cons]
        exact Or.inr (ih h)

/-! ### `Nat.repr` is injective

Needed to show the collision probe of `_get_unique_filename` always finds a
free path: the probe names `stem_1.ext, stem_2.ext, …` are pairwise
distinct, so a finite set of occupied paths cannot exhaust them. -/

theorem toDigitsCore_append (b : Nat) :
    ∀ (fuel n : Nat) (ds : List Char),
      Nat.toDigitsCore b fuel n ds = Nat.toDigitsCore b fuel n [] ++ ds := by
  intro fuel
  induction fuel with
  | zero => intro n ds; simp [Nat.toDigitsCore]
  | succ f ih =>
      intro n ds
      simp only [Nat.toDigitsCore]
      by_cases h : n / b = 0
      · simp [h]
      · simp only [h, if_false]
        rw [ih (n / b) (Nat.digitChar (n % b) :: ds),
          ih (n / b) [Nat.digitChar (n % b)], List.append_assoc]
        rfl

theorem toDigitsCore_fuel_irrel :
    ∀ (n fuel fuel' : Nat), n < fuel → n < fuel' →
      Nat.toDigitsCore 10 fuel n [] = Nat.toDigitsCore 10 fuel' n [] := by
  intro n
  induction n using Nat.strong_induction_on with
  | _ n ih =>
      intro fuel fuel' hf hf'
      match fuel, fuel', hf, hf' with
      | f + 1, f' + 1, hf, hf' =>
          simp only [Nat.toDigitsCore]
          by_cases h : n / 10 = 0
          · simp [h]
          · simp only [h, if_false]
            rw [toDigitsCore_append 10 f, toDigitsCore_append 10 f']
            have hn : 0 < n := by
              rcases Nat.eq_zero_or_pos n with h0 | h0
              · exact absurd (by simp [h0] : n / 10 = 0) h
              · exact h0
            have hdiv : n / 10 < n := Nat.div_lt_self hn (by omega)
            rw [ih (n / 10) hdiv f f' (by omega) (by omega)]

theorem chDigitVal_digitChar : ∀ d, d < 10 → chDigitVal (Nat.digitChar d) = d := by
  decide

theorem valDigits_append_digit (l : List Char) (c : Char) :
    valDigits (l ++ [c]) = valDigits l * 10 + chDigitVal c := by
  simp [valDigits, List.foldl_append]

theorem valDigits_toDigits : ∀ n, valDigits (Nat.toDigits 10 n) = n := by
  intro n
  induction n using Nat.strong_induction_on with
  | _ n ih =>
      unfold Nat.toDigits
      simp only [Nat.toDigitsCore]
      by_cases h : n / 10 = 0
      · have hlt : n < 10 := by omega
        have hmod : n % 10 = n := Nat.mod_eq_of_lt hlt
        simp only [h, if_true]
        simp only [valDigits, List.foldl, hmod, Nat.zero_mul, Nat.zero_add]
        exact chDigitVal_digitChar n hlt
      · simp only [h, if_false]
        have hn : 0 < n := by
          rcases Nat.eq_zero_or_pos n with h0 | h0
          · exact absurd (by simp [h0] : n / 10 = 0) h
          · exact h0
        have hdiv : n / 10 < n := Nat.div_lt_self hn (by omega)
        rw [toDigitsCore_append 10 n,
          toDigitsCore_fuel_irrel (n / 10) n (n / 10 + 1) hdiv (by omega),
          show Nat.toDigitsCore 10 (n / 10 + 1) (n / 10) [] =
            Nat.toDigits 10 (n / 10) from rfl,
          valDigits_append_digit, ih (n / 10) hdiv,
          chDigitVal_digitChar (n % 10) (Nat.mod_lt n (by omega))]
        omega

theorem natRepr_injective : Function.Injective Nat.repr := by
  intro m n h
  have hd : Nat.toDigits 10 m = Nat.toDigits 10 n := by
    have hdata := congrArg String.data h
    simpa [Nat.repr, List.asString] using hdata
  have hv := congrArg valDigits hd
  rwa [valDigits_toDigits, valDigits_toDigits] at hv

theorem probePath_injective (directory stem ext : String) :
    Function.Injective (probePath directory stem ext) := by
  intro k k' h
  unfold probePath at h
  have hdata := congrArg String.data h
  simp only [String.data_append, List.append_assoc] at hdata
  have h1 := List.append_cancel_left hdata
  have h2 := List.append_cancel_left h1
  have h3 := List.append_cancel_left h2
  have h4 : (Nat.repr k).data = (Nat.repr k').data :=
    List.append_cancel_right (List.append_cancel_left h3)
  exact natRepr_injective (by
    cases hk : Nat.repr k
    cases hk' : Nat.repr k'
    rw [hk, hk'] at h4
    exact congrArg String.mk h4)

/-! ### The collision probe of `_get_unique_filename` -/

theorem contains_iff_mem (l : List String) (s : String) :
    l.contains s = true ↔ s ∈ l := by
  simp [List.contains_eq_any_beq, List.any_eq_true]

/-- A finite occupied set cannot exhaust the pairwise distinct probe
paths: some probe with counter in `[1, occ.length + 1]` is free. -/
theorem exists_free_probe (occ : List String) (directory stem ext : String) :
    ∃ i, i ≤ occ.length ∧
      occ.contains (probePath directory stem ext (1 + i)) = false := by
  by_contra hall
  push_neg at hall
  have hmem : ∀ i ∈ Finset.range (occ.length + 1),
      probePath directory stem ext (1 + i) ∈ occ.toFinset := by
    intro i hi
    rw [List.mem_toFinset, ← contains_iff_mem]
    exact (Bool.eq_false_or_eq_true _).resolve_right
      (hall i (Nat.lt_succ_iff.mp (Finset.mem_range.mp hi)))
  have hcard : occ.toFinset.card < (Finset.range (occ.length + 1)).card := by
    have := occ.toFinset_card_le
    rw [Finset.card_range]
    omega
  obtain ⟨a, _, b, _, hne, heq⟩ :=
    Finset.exists_ne_map_eq_of_card_lt_of_maps_to hcard hmem
  have : 1 + a = 1 + b := probePath_injective directory stem ext heq
  exact hne (by omega)

/-- When some probe within the fuel is free, `probeLoop` returns the FIRST
free probe: every smaller counter is occupied. -/
theorem probeLoop_first_free (occ : List String) (directory stem ext : String) :
    ∀ (fuel start : Nat),
      (∃ i, i < fuel ∧
        occ.contains (probePath directory stem ext (start + i)) = false) →
      ∃ i, i < fuel ∧
        occ.contains (probePath directory stem ext (start + i)) = false ∧
        (∀ j, j < i →
          occ.contains (probePath directory stem ext (start + j)) = true) ∧
        probeLoop occ directory stem ext fuel start =
          probePath directory stem ext (start + i) := by
  intro fuel
  induction fuel with
  | zero => rintro start ⟨i, hi, _⟩; omega
  | succ f ih =>
      rintro start ⟨i, hi, hfi⟩
      by_cases hc : occ.contains (probePath directory stem ext start) = true
      · have hine : i ≠ 0 := by
          intro h0
          rw [h0, Nat.add_zero, hc] at hfi
          cases hfi
        obtain ⟨i', rfl⟩ : ∃ i', i = i' + 1 := ⟨i - 1, by omega⟩
        have hfree' : ∃ j, j < f ∧
            occ.contains (probePath directory stem ext (start + 1 + j)) = false := by
          refine ⟨i', by omega, ?_⟩
          have harr : start + 1 + i' = start + (i' + 1) := by omega
          rw [harr]; exact hfi
        obtain ⟨j₀, hj₀, hfree₀, hmin₀, heq₀⟩ := ih (start + 1) hfree'
        refine ⟨j₀ + 1, by omega, ?_, ?_, ?_⟩
        · have harr : start + (j₀ + 1) = start + 1 + j₀ := by omega
          rw [harr]; exact hfree₀
        · intro j hj
          match j with
          | 0 => simpa using hc
          | j' + 1 =>
              have harr : start + (j' + 1) = start + 1 + j' := by omega
              rw [harr]; exact hmin₀ j' (by omega)
        · simp only [probeLoop]
          rw [if_pos hc, heq₀]
          congr 1
          omega
      · have hcf : occ.contains (probePath directory stem ext start) = false :=
          (Bool.eq_false_or_eq_true _).resolve_left hc
        refine ⟨0, by omega, by simpa using hcf, ?_, ?_⟩
        · intro j hj
          exact absurd hj (Nat.not_lt_zero j)
        · rw [Nat.add_zero]
          simp only [probeLoop]
          rw [if_neg hc]
          rw [Nat.add_zero]

/-- Full behavioural specification of `_get_unique_filename`: the free
base path is returned as is; an occupied base path diverts to the first
free probe `stem_k.ext` (k ≥ 1, all smaller counters occupied); the result
is never an occupied path. -/
theorem getUniqueFilename_spec (occ : List String) (directory filename : String) :
    (occ.contains (directory ++ "/" ++ filename) = false →
      getUniqueFilename occ directory filename = directory ++ "/" ++ filename) ∧
    (occ.contains (directory ++ "/" ++ filename) = true →
      ∃ k, 1 ≤ k ∧
        getUniqueFilename occ directory filename =
          probePath directory (splitExt filename).1 (splitExt filename).2 k ∧
        occ.contains
          (probePath directory (splitExt filename).1 (splitExt filename).2 k)
            = false ∧
        ∀ j, 1 ≤ j → j < k →
          occ.contains
            (probePath directory (splitExt filename).1 (splitExt filename).2 j)
              = true) ∧
    occ.contains (getUniqueFilename occ directory filename) = false := by
  have hocc : occ.contains (directory ++ "/" ++ filename) = true →
      ∃ k, 1 ≤ k ∧
        getUniqueFilename occ directory filename =
          probePath directory (splitExt filename).1 (splitExt filename).2 k ∧
        occ.contains
          (probePath directory (splitExt filename).1 (splitExt filename).2 k)
            = false ∧
        ∀ j, 1 ≤ j → j < k →
          occ.contains
            (probePath directory (splitExt filename).1 (splitExt filename).2 j)
              = true := by
    intro hc
    obtain ⟨i, hi, hfree⟩ :=
      exists_free_probe occ directory (splitExt filename).1 (splitExt filename).2
    obtain ⟨i₀, hi₀, hfree₀, hmin₀, heq₀⟩ :=
      probeLoop_first_free occ directory (splitExt filename).1 (splitExt filename).2
        (occ.length + 1) 1 ⟨i, by omega, hfree⟩
    refine ⟨1 + i₀, by omega, ?_, hfree₀, ?_⟩
    · unfold getUniqueFilename
      rw [if_pos hc]
      exact heq₀
    · intro j h1j hji
      have := hmin₀ (j - 1) (by omega)
      have harr : 1 + (j - 1) = j := by omega
      rwa [harr] at this
  refine ⟨?_, hocc, ?_⟩
  · intro hcf
    unfold getUniqueFilename
    rw [if_neg (by rw [hcf]; exact Bool.false_ne_true)]
  · by_cases hc : occ.contains (directory ++ "/" ++ filename) = true
    · obtain ⟨k, _, heq, hfree, _⟩ := hocc hc
      rw [heq]; exact hfree
    · have hcf := (Bool.eq_false_or_eq_true _).resolve_left hc
      have heq : getUniqueFilename occ directory filename =
          directory ++ "/" ++ filename := by
        unfold getUniqueFilename
        rw [if_neg (by rw [hcf]; exact Bool.false_ne_true)]
      rw [heq]; exact hcf

/-! ### The `ORDER BY (dt, IDFL)` key is a total transitive preorder -/

theorem strLtB_total : ∀ as bs : List Char,
    strLtB as bs = true ∨ strLtB bs as = true ∨ as = bs := by
  intro as
  induction as with
  | nil =>
      intro bs
      cases bs with
      | nil => exact Or.inr (Or.inr rfl)
      | cons b bs => exact Or.inl (by simp [strLtB])
  | cons a as ih =>
      intro bs
      cases bs with
      | nil => exact Or.inr (Or.inl (by simp [strLtB]))
      | cons b bs =>
          by_cases hab : a.toNat < b.toNat
          · exact Or.inl (by simp [strLtB, hab])
          · by_cases hba : b.toNat < a.toNat
            · exact Or.inr (Or.inl (by simp [strLtB, hba, hab]))
            · have hchar : a = b := by
                apply Char.eq_of_val_eq
                apply UInt32.eq_of_toBitVec_eq
                apply BitVec.eq_of_toNat_eq
                have e1 : a.toNat = a.val.toBitVec.toNat := rfl
                have e2 : b.toNat = b.val.toBitVec.toNat := rfl
                omega
              rcases ih bs with h | h | h
              · exact Or.inl (by simp [strLtB, hab, hba, h])
              · exact Or.inr (Or.inl (by
                  subst hchar
                  simp [strLtB, hab, hba, h]))
              · exact Or.inr (Or.inr (by rw [hchar, h]))

theorem strLtB_trans : ∀ as bs cs : List Char,
    strLtB as bs = true → strLtB bs cs = true → strLtB as cs = true := by
  intro as
  induction as with
  | nil =>
      intro bs cs h1 h2
      cases bs with
      | nil => simp [strLtB] at h1
      | cons b bs =>
          cases cs with
          | nil => simp [strLtB] at h2
          | cons c cs => simp [strLtB]
  | cons a as ih =>
      intro bs cs h1 h2
      cases bs with
      | nil => simp [strLtB] at h1
      | cons b bs =>
          cases cs with
          | nil => simp [strLtB] at h2
          | cons c cs =>
              simp only [strLtB] at h1 h2 ⊢
              by_cases hab : a.toNat < b.toNat
              · by_cases hbc : b.toNat < c.toNat
                · simp [show a.toNat < c.toNat by omega]
                · rw [if_pos hab] at h1
                  rw [if_neg hbc] at h2
                  by_cases hcb : c.toNat < b.toNat
                  · rw [if_pos hcb] at h2; cases h2
                  · rw [if_neg hcb] at h2
                    simp [show a.toNat < c.toNat by omega]
              · rw [if_neg hab] at h1
                by_cases hba : b.toNat < a.toNat
                · rw [if_pos hba] at h1; cases h1
                · rw [if_neg hba] at h1
                  by_cases hbc : b.toNat < c.toNat
                  · simp [show a.toNat < c.toNat by omega]
                  · rw [if_neg hbc] at h2
                    by_cases hcb : c.toNat < b.toNat
                    · rw [if_pos hcb] at h2; cases h2
                    · rw [if_neg hcb] at h2
                      rw [if_neg (show ¬a.toNat < c.toNat by omega),
                        if_neg (show ¬c.toNat < a.toNat by omega)]
                      exact ih bs cs h1 h2

theorem dateLtB_iff (a b : Date) :
    dateLtB a b = true ↔
      (a.year < b.year ∨ (a.year = b.year ∧
        (a.month < b.month ∨ (a.month = b.month ∧ a.day < b.day)))) := by
  simp [dateLtB, Bool.or_eq_true, Bool.and_eq_true, decide_eq_true_iff, beq_iff_eq]

theorem dateLtB_total (a b : Date) :
    dateLtB a b = true ∨ dateLtB b a = true ∨ a = b := by
  obtain ⟨ya, ma, da⟩ := a
  obtain ⟨yb, mb, db⟩ := b
  simp only [dateLtB_iff, Date.mk.injEq]
  omega

theorem dateLtB_trans (a b c : Date) (h1 : dateLtB a b = true)
    (h2 : dateLtB b c = true) : dateLtB a c = true := by
  obtain ⟨ya, ma, da⟩ := a
  obtain ⟨yb, mb, db⟩ := b
  obtain ⟨yc, mc, dc⟩ := c
  simp only [dateLtB_iff] at h1 h2 ⊢
  omega

theorem string_eq_of_data_eq {s t : String} (h : s.data = t.data) : s = t := by
  cases s
  cases t
  exact congrArg String.mk h

instance : IsTotal FileRecord RecLE := by
  constructor
  intro a b
  simp only [RecLE, recLeB, Bool.or_eq_true, Bool.and_eq_true, beq_iff_eq]
  rcases dateLtB_total a.dt b.dt with h | h | h
  · exact Or.inl (Or.inl h)
  · exact Or.inr (Or.inl h)
  · rcases strLtB_total a.IDFL.data b.IDFL.data with hs | hs | hs
    · exact Or.inl (Or.inr ⟨h, Or.inl hs⟩)
    · exact Or.inr (Or.inr ⟨h.symm, Or.inl hs⟩)
    · exact Or.inl (Or.inr ⟨h, Or.inr (string_eq_of_data_eq hs)⟩)

instance : IsTrans FileRecord RecLE := by
  constructor
  intro a b c h1 h2
  simp only [RecLE, recLeB, Bool.or_eq_true, Bool.and_eq_true, beq_iff_eq] at h1 h2 ⊢
  rcases h1 with h1 | ⟨h1d, h1s⟩
  · rcases h2 with h2 | ⟨h2d, _⟩
    · exact Or.inl (dateLtB_trans _ _ _ h1 h2)
    · exact Or.inl (h2d ▸ h1)
  · rcases h2 with h2 | ⟨h2d, h2s⟩
    · exact Or.inl (h1d ▸ h2)
    · refine Or.inr ⟨h1d.trans h2d, ?_⟩
      rcases h1s with h1s | h1s
      · rcases h2s with h2s | h2s
        · exact Or.inl (strLtB_trans _ _ _ h1s h2s)
        · exact Or.inl (h2s ▸ h1s)
      · rcases h2s with h2s | h2s
        · exact Or.inl (h1s ▸ h2s)
        · exact Or.inr (h1s.trans h2s)

/-! ### Helper lemmas about `getFilesToMove` -/

theorem getFilesToMove_unmoved (table : Catalog) (n : Nat) :
    ∀ r ∈ getFilesToMove table n, r.ismooved = false := by
  intro r hr
  have hr' : r ∈ (table.filter (fun r => r.ismooved == false)).insertionSort RecLE :=
    List.take_subset _ _ hr
  rw [List.mem_insertionSort] at hr'
  have := List.of_mem_filter hr'
  simpa using this

theorem getFilesToMove_length_le (table : Catalog) (n : Nat) :
    (getFilesToMove table n).length ≤ n := by
  unfold getFilesToMove
  rw [List.length_take]
  omega

theorem getFilesToMove_sorted (table : Catalog) (n : Nat) :
    (getFilesToMove table n).Pairwise RecLE :=
  List.Pairwise.sublist (List.take_sublist _ _)
    (List.sorted_insertionSort RecLE _)

theorem getFilesToMove_filter_moved_nil (table : Catalog) (n : Nat) :
    (getFilesToMove table n).filter (fun f => f.ismooved) = [] := by
  rw [List.filter_eq_nil_iff]
  intro r hr
  simp [getFilesToMove_unmoved table n r hr]

/-! ### Helper lemma: the conditional UPDATE of `mark_file_moved` is
idempotent -/

theorem markFileMoved_second_noop (table : Catalog) (idfl : String)
    (t t' : Nat) :
    (markFileMoved (markFileMoved table idfl t).1 idfl t').1 =
      (markFileMoved table idfl t).1 := by
  simp only [markFileMoved, List.map_map]
  apply List.map_congr_left
  intro r _
  by_cases h : (r.IDFL == idfl && r.ismooved == false) = true
  · simp only [Function.comp_apply, h, if_true]
    have : r.ismooved = false := by
      rcases Bool.and_eq_true .. |>.mp h with ⟨_, h2⟩
      simpa using h2
    simp
  · simp only [Function.comp_apply, h, if_false]
    rw [if_neg (by simpa using h)]

/-! ### Helper lemmas about the batch loop -/

theorem migrateStep_foldl_processed (cfg : Config) (now : Nat) :
    ∀ (files : List FileRecord) (acc : MigState × Nat × Nat × Nat),
      (files.foldl (migrateStep cfg now) acc).2.1 = acc.2.1 + files.length := by
  intro files
  induction files with
  | nil => intro acc; simp
  | cons r rest ih =>
      intro acc
      rw [List.foldl_cons, ih]
      simp only [migrateStep, List.length_cons]
      omega

theorem migrateBatch_processed (cfg : Config) (s : MigState)
    (stats : MigrationStats) (batchSize now : Nat) :
    (migrateBatch cfg s stats batchSize now).1.1 ≤ batchSize ∧
    (migrateBatch cfg s stats batchSize now).2.2.processedFiles
      = stats.processedFiles + (migrateBatch cfg s stats batchSize now).1.1 := by
  unfold migrateBatch
  by_cases h : (getFilesToMove s.table batchSize).isEmpty
  · simp [h]
  · simp only [h, if_false]
    have hlen : (migrateRecords cfg (getFilesToMove s.table batchSize) s now).2.1
        = (getFilesToMove s.table batchSize).length := by
      unfold migrateRecords
      rw [migrateStep_foldl_processed]
      simp
    constructor
    · simpa [hlen] using getFilesToMove_length_le s.table batchSize
    · simp

theorem migrateAllLoop_le_cap (cfg : Config) (m : Nat) (hm : 0 < m) :
    ∀ (fuel : Nat) (s : MigState) (stats : MigrationStats) (now : Nat),
      stats.processedFiles ≤ m →
      (migrateAllLoop cfg (some m) fuel s stats now).2.processedFiles ≤ m := by
  intro fuel
  induction fuel with
  | zero => intro s stats now h; exact h
  | succ f ih =>
      intro s stats now h
      simp only [migrateAllLoop]
      by_cases hbr : (capTruthy (some m) &&
          decide ((some m).getD 0 ≤ stats.processedFiles)) = true
      · rw [if_pos hbr]; exact h
      · rw [if_neg hbr]
        have hct : capTruthy (some m) = true := by
          simp only [capTruthy, ne_eq, bne_iff_ne]
          omega
        have hlt : stats.processedFiles < m := by
          by_contra hge
          exact hbr (by
            rw [hct, Bool.true_and, decide_eq_true_eq]
            simpa using Nat.le_of_not_lt hge)
        rw [hct]
        simp only [if_true, Option.getD_some]
        have hb := migrateBatch_processed cfg s stats
          (min cfg.batchSize (m - stats.processedFiles)) now
        have hmin : min cfg.batchSize (m - stats.processedFiles)
            ≤ m - stats.processedFiles := Nat.min_le_right _ _
        by_cases hz : ((migrateBatch cfg s stats
            (min cfg.batchSize (m - stats.processedFiles)) now).1.1 == 0) = true
        · rw [if_pos hz]
          have hb1 := hb.1
          have hb2 := hb.2
          dsimp only
          omega
        · rw [if_neg hz]
          apply ih
          have hb1 := hb.1
          have hb2 := hb.2
          omega

/-! ## The claims -/

/-- C1, counterexample: the claim says `mark_moved` "returns false (not an
error) when the row was already moved".  On a catalog whose only row is
already moved (`ismooved = true`, `dtmoove = some 5`), `mark_file_moved`
returns `true`, not `false` — the boolean does not distinguish the no-op
from a real transition — even though the CAS `WHERE` clause leaves the row
(including `dtmoove`) untouched. -/
theorem claimC1_counterexample :
    (markFileMoved [⟨"file001", ⟨2024, 1, 15⟩, "doc", true, some 5⟩]
        "file001" 9).2 ≠ false ∧
    (markFileMoved [⟨"file001", ⟨2024, 1, 15⟩, "doc", true, some 5⟩]
        "file001" 9).1
      = [⟨"file001", ⟨2024, 1, 15⟩, "doc", true, some 5⟩] := by
  exact ⟨by decide, by decide⟩

/-- C1 (amended): `mark_moved(id, t)` performs a compare-and-set update
conditioned on the row still having `moved = false`, so calling it twice in
a row yields exactly one effective transition, the second call being a
no-op on the table that never alters `moved_at`; but the boolean result
does NOT distinguish the two outcomes: absent a query error it returns
`true` both when the row transitioned and when the row was already moved
(the `UPDATE`'s matched-row count is never inspected). -/
theorem claimC1_mark_moved_cas (table : Catalog) (idfl : String) (t t' : Nat) :
    (markFileMoved table idfl t).2 = true ∧
    (markFileMoved (markFileMoved table idfl t).1 idfl t').1
      = (markFileMoved table idfl t).1 ∧
    (markFileMoved (markFileMoved table idfl t).1 idfl t').2 = true :=
  ⟨rfl, markFileMoved_second_noop table idfl t t', rfl⟩

/-- C2: the claim says `verify_sample(n)` inspects up to `n` records with
`moved = true` and reports `verified = 3` on a catalog with exactly 3 moved
records whose files exist with non-zero size.  The code cannot: it draws
its sample from `get_files_to_move`, whose query selects ONLY `ismooved = 0`
rows, and then keeps the `ismooved` ones — an always-empty list.  So
`verify_migration` returns `verified = 0, errors = 0, total_checked = 0`
for every catalog, in particular for the claimed 3-moved-records catalog
(second conjunct evaluates the code at that failing input). -/
theorem claimC2_verify_always_zero :
    (∀ (cfg : Config) (s : MigState) (n : Nat),
        verifyMigration cfg s n =
          { verified := 0, errors := 0, totalChecked := 0, details := [] }) ∧
    verifyMigration ⟨"old", "new", 10⟩
      ⟨[⟨"x", ⟨2024, 1, 1⟩, "n1", true, some 1⟩,
        ⟨"y", ⟨2024, 1, 2⟩, "n2", true, some 2⟩,
        ⟨"z", ⟨2024, 1, 3⟩, "n3", true, some 3⟩],
       [("new/20240101/x", "cx"), ("new/20240102/y", "cy"),
        ("new/20240103/z", "cz")]⟩ 10
      = { verified := 0, errors := 0, totalChecked := 0, details := [] } := by
  constructor
  · intro cfg s n
    unfold verifyMigration
    rw [getFilesToMove_filter_moved_nil]
    rfl
  · decide

/-- C3: the integrity gate.  Whenever the per-record migration's own
probes succeed — the source exists, the move returns a path, and BOTH the
source hash and the destination hash are obtainable but different — the
record is reported failed (`false`) and `mark_file_moved` is never
reached: the catalog table of the resulting state is exactly the input
table, so the row still has `moved = false`. -/
theorem claimC3_integrity_gate (cfg : Config) (s : MigState) (r : FileRecord)
    (now : Nat) (p : String) (fs' : Fs) (h1 h2 : String)
    (hex : fileExists s.fs cfg.base cfg.newBase r.IDFL false r.dt = true)
    (hmv : moveFile s.fs cfg.base cfg.newBase r.IDFL r.dt = some (p, fs'))
    (hold : getFileHash s.fs cfg.base cfg.newBase r.IDFL false r.dt = some h1)
    (hnew : getFileHash fs' cfg.base cfg.newBase r.IDFL true r.dt = some h2)
    (hne : h1 ≠ h2) :
    (migrateSingleFile cfg s r now).1 = false ∧
    (migrateSingleFile cfg s r now).2.table = s.table := by
  unfold migrateSingleFile
  rw [if_neg (by simp [hex])]
  simp only [hmv, hold, hnew]
  rw [if_pos (by simp [hne])]
  exact ⟨rfl, rfl⟩

/-- C3, witness: a concrete state realising the integrity mismatch — the
source `old/f` holds `"A"` while the destination slot `new/20240307/f` is
already occupied by `"B"`, so after the collision-diverted move the
destination hash reads `"B" ≠ "A"`; the record fails and the catalog is
untouched. -/
theorem claimC3_witness :
    (migrateSingleFile ⟨"old", "new", 2⟩
        ⟨[⟨"f", ⟨2024, 3, 7⟩, "nm", false, none⟩],
         [("old/f", "A"), ("new/20240307/f", "B")]⟩
        ⟨"f", ⟨2024, 3, 7⟩, "nm", false, none⟩ 5).1 = false ∧
    (migrateSingleFile ⟨"old", "new", 2⟩
        ⟨[⟨"f", ⟨2024, 3, 7⟩, "nm", false, none⟩],
         [("old/f", "A"), ("new/20240307/f", "B")]⟩
        ⟨"f", ⟨2024, 3, 7⟩, "nm", false, none⟩ 5).2.table
      = [⟨"f", ⟨2024, 3, 7⟩, "nm", false, none⟩] :=
  claimC3_integrity_gate ⟨"old", "new", 2⟩
    ⟨[⟨"f", ⟨2024, 3, 7⟩, "nm", false, none⟩],
     [("old/f", "A"), ("new/20240307/f", "B")]⟩
    ⟨"f", ⟨2024, 3, 7⟩, "nm", false, none⟩ 5
    "new/20240307/f_1" [("new/20240307/f_1", "A"), ("new/20240307/f", "B")]
    "A" "B" (by decide) (by decide) (by decide) (by decide) (by decide)

/-- C4, counterexample: the claim says every per-record failure appends an
entry to the run's error list.  A batch over a catalog with one unmoved
record whose source file is missing tallies `failed = 1` yet leaves the
error list empty: `_migrate_single_file` swallows the failure into its
boolean result, and the only `add_error` call sits in an `except` branch
that can never fire. -/
theorem claimC4_counterexample :
    (migrateBatch ⟨"old", "new", 5⟩
        ⟨[⟨"g", ⟨2024, 1, 1⟩, "nm", false, none⟩], []⟩
        initStats 5 3).2.2.failedFiles = 1 ∧
    (migrateBatch ⟨"old", "new", 5⟩
        ⟨[⟨"g", ⟨2024, 1, 1⟩, "nm", false, none⟩], []⟩
        initStats 5 3).2.2.errors = [] := by
  exact ⟨by decide, by decide⟩

/-- C4 (amended): per-record failures (source missing, integrity mismatch,
catalog update failed) are tallied in the run's failed count and never
raise past the batch loop — the batch is a total function of the state —
but they do NOT append to the run's error list, which the batch path never
modifies (`add_error` is only reachable from a dead `except` branch).
Only a failure of the batch-level catalog fetch itself propagates as a
run-fatal `MigrationError`. -/
theorem claimC4_batch_error_handling (cfg : Config) (s : MigState)
    (stats : MigrationStats) (batchSize now : Nat) :
    (migrateBatch cfg s stats batchSize now).2.2.errors = stats.errors ∧
    (migrateBatch cfg s stats batchSize now).2.2.failedFiles
      = stats.failedFiles + (migrateBatch cfg s stats batchSize now).1.2.2 ∧
    migrateBatchExc false cfg s stats batchSize now
      = Except.ok (migrateBatch cfg s stats batchSize now) ∧
    migrateBatchExc true cfg s stats batchSize now
      = Except.error "MigrationError: query failed" := by
  refine ⟨?_, ?_, rfl, rfl⟩
  · unfold migrateBatch
    by_cases h : (getFilesToMove s.table batchSize).isEmpty
    · simp [h]
    · simp [h]
  · unfold migrateBatch
    by_cases h : (getFilesToMove s.table batchSize).isEmpty
    · simp [h]
    · simp [h]

/-- C5: `unique_name(dir, name)` returns `dir/name` when that path is
free; otherwise it splits `name` at the last `'.'` into stem and extension
(none when no dot) and probes `stem_1.ext, stem_2.ext, …` in strictly
increasing counter order, returning the first free probe (every smaller
counter ≥ 1 is occupied); the returned path is never an occupied one. -/
theorem claimC5_unique_name (occ : List String) (directory filename : String) :
    (occ.contains (directory ++ "/" ++ filename) = false →
      getUniqueFilename occ directory filename = directory ++ "/" ++ filename) ∧
    (occ.contains (directory ++ "/" ++ filename) = true →
      ∃ k, 1 ≤ k ∧
        getUniqueFilename occ directory filename =
          probePath directory (splitExt filename).1 (splitExt filename).2 k ∧
        occ.contains
          (probePath directory (splitExt filename).1 (splitExt filename).2 k)
            = false ∧
        ∀ j, 1 ≤ j → j < k →
          occ.contains
            (probePath directory (splitExt filename).1 (splitExt filename).2 j)
              = true) ∧
    occ.contains (getUniqueFilename occ directory filename) = false :=
  getUniqueFilename_spec occ directory filename

/-- C5, witness: with `d/a.txt` free the name is returned unchanged; with
`d/a.txt` occupied the probe diverts (`∃ k ≥ 1` to `a_k.txt`), and with
both `d/a.txt` and `d/a_1.txt` occupied the result is `d/a_2.txt`, never an
occupied path. -/
theorem claimC5_witness :
    getUniqueFilename [] "d" "a.txt" = "d/a.txt" ∧
    (∃ k, 1 ≤ k ∧
      getUniqueFilename ["d/a.txt"] "d" "a.txt" =
        probePath "d" (splitExt "a.txt").1 (splitExt "a.txt").2 k) ∧
    ["d/a.txt", "d/a_1.txt"].contains
      (getUniqueFilename ["d/a.txt", "d/a_1.txt"] "d" "a.txt") = false ∧
    getUniqueFilename ["d/a.txt"] "d" "a.txt" = "d/a_1.txt" ∧
    getUniqueFilename ["d/a.txt", "d/a_1.txt"] "d" "a.txt" = "d/a_2.txt" := by
  obtain ⟨k, hk, heq, _, _⟩ :=
    (claimC5_unique_name ["d/a.txt"] "d" "a.txt").2.1 (by decide)
  exact ⟨(claimC5_unique_name [] "d" "a.txt").1 (by decide),
    ⟨k, hk, heq⟩,
    (claimC5_unique_name ["d/a.txt", "d/a_1.txt"] "d" "a.txt").2.2,
    by decide, by decide⟩

/-- C6: `fetch_unmoved(limit)` returns only records with `moved = false`,
at most `limit` of them, sorted ascending by the `(registered_date, id)`
key; on the catalog of three unmoved records dated 2024-01-01, 2024-01-02,
2024-01-02 (ids "a", "c", "b" with "b" < "c"), `fetch_unmoved(2)` returns
the 2024-01-01 record and the 2024-01-02 record with the smaller id. -/
theorem claimC6_fetch_unmoved (table : Catalog) (limit : Nat) :
    (∀ r ∈ getFilesToMove table limit, r.ismooved = false) ∧
    (getFilesToMove table limit).length ≤ limit ∧
    (getFilesToMove table limit).Pairwise RecLE ∧
    getFilesToMove
      [⟨"c", ⟨2024, 1, 2⟩, "f3", false, none⟩,
       ⟨"a", ⟨2024, 1, 1⟩, "f1", false, none⟩,
       ⟨"b", ⟨2024, 1, 2⟩, "f2", false, none⟩] 2 =
      [⟨"a", ⟨2024, 1, 1⟩, "f1", false, none⟩,
       ⟨"b", ⟨2024, 1, 2⟩, "f2", false, none⟩] :=
  ⟨getFilesToMove_unmoved table limit, getFilesToMove_length_le table limit,
   getFilesToMove_sorted table limit, by decide⟩

/-- C6, witness: instantiating the fetch contract on the concrete
three-record catalog: the 2024-01-01 record is in the fetched batch and is
unmoved, and the batch has at most 2 records. -/
theorem claimC6_witness :
    (⟨"a", ⟨2024, 1, 1⟩, "f1", false, none⟩ : FileRecord).ismooved = false ∧
    (getFilesToMove
      [⟨"c", ⟨2024, 1, 2⟩, "f3", false, none⟩,
       ⟨"a", ⟨2024, 1, 1⟩, "f1", false, none⟩,
       ⟨"b", ⟨2024, 1, 2⟩, "f2", false, none⟩] 2).length ≤ 2 := by
  have h := claimC6_fetch_unmoved
    [⟨"c", ⟨2024, 1, 2⟩, "f3", false, none⟩,
     ⟨"a", ⟨2024, 1, 1⟩, "f1", false, none⟩,
     ⟨"b", ⟨2024, 1, 2⟩, "f2", false, none⟩] 2
  exact ⟨h.1 ⟨"a", ⟨2024, 1, 1⟩, "f1", false, none⟩ (by decide), h.2.1⟩

/-- C8: the destination directory is the pure function
`new_base / strftime(date, "%Y%m%d")`; for a record registered 2024-03-07
the directory component is exactly `20240307`, whatever the base. -/
theorem claimC8_partition_dir (newBase : String) (d : Date) :
    getDateDirectory newBase d = newBase ++ "/" ++ strftimeYYYYMMDD d ∧
    getDateDirectory newBase ⟨2024, 3, 7⟩ = newBase ++ "/" ++ "20240307" := by
  refine ⟨rfl, ?_⟩
  unfold getDateDirectory
  rw [show strftimeYYYYMMDD ⟨2024, 3, 7⟩ = "20240307" from by decide]

/-- C7: for every positive cap `max_files`, the bounded run processes at
most `max_files` records (whatever the loop fuel); the loop breaks
immediately once the processed count has reached the cap; and when the
capped-size fetch (`min(batch size, cap - processed)`) comes back empty the
loop stops right after that batch. -/
theorem claimC7_bounded_run (cfg : Config) (m : Nat) (hm : 0 < m) :
    (∀ (fuel : Nat) (s : MigState) (now : Nat),
        (migrateAll cfg (some m) fuel s now).2.processedFiles ≤ m) ∧
    (∀ (fuel : Nat) (s : MigState) (stats : MigrationStats) (now : Nat),
        m ≤ stats.processedFiles →
        migrateAllLoop cfg (some m) (fuel + 1) s stats now = (s, stats)) ∧
    (∀ (fuel : Nat) (s : MigState) (stats : MigrationStats) (now : Nat),
        stats.processedFiles < m →
        getFilesToMove s.table (min cfg.batchSize (m - stats.processedFiles))
          = [] →
        migrateAllLoop cfg (some m) (fuel + 1) s stats now
          = (s, { stats with batchCount := stats.batchCount + 1 })) := by
  have hct : capTruthy (some m) = true := by
    simp only [capTruthy, ne_eq, bne_iff_ne]
    omega
  refine ⟨?_, ?_, ?_⟩
  · intro fuel s now
    unfold migrateAll
    exact migrateAllLoop_le_cap cfg m hm fuel s _ now (by simp [initStats])
  · intro fuel s stats now hle
    simp only [migrateAllLoop]
    rw [if_pos (by
      rw [hct, Bool.true_and, Option.getD_some]
      exact decide_eq_true hle)]
  · intro fuel s stats now hlt hempty
    simp only [migrateAllLoop]
    rw [if_neg (by
      rw [hct, Bool.true_and, Option.getD_some]
      simp only [decide_eq_true_eq]
      omega)]
    rw [hct]
    simp only [if_true, Option.getD_some]
    unfold migrateBatch
    rw [hempty]
    simp

/-- C7, witness: a cap of 1 on a two-record catalog processes at most one
record. -/
theorem claimC7_witness :
    0 < 1 ∧
    (migrateAll ⟨"old", "new", 5⟩ (some 1) 5
        ⟨[⟨"a", ⟨2024, 1, 1⟩, "f1", false, none⟩,
          ⟨"b", ⟨2024, 1, 2⟩, "f2", false, none⟩],
         [("old/a", "ca"), ("old/b", "cb")]⟩ 7).2.processedFiles ≤ 1 :=
  ⟨by decide,
   (claimC7_bounded_run ⟨"old", "new", 5⟩ 1 (by decide)).1 5
     ⟨[⟨"a", ⟨2024, 1, 1⟩, "f1", false, none⟩,
       ⟨"b", ⟨2024, 1, 2⟩, "f2", false, none⟩],
      [("old/a", "ca"), ("old/b", "cb")]⟩ 7⟩

/-- C9: when the physical move resolves a name collision by choosing a
suffixed destination, the subsequent destination hash is still computed at
the fixed partitioned path `new_base/YYYYMMDD/id`: it reads the
pre-existing colliding file's content `B`, not the content `A` of the file
actually relocated, which now sits at the suffixed path the move
returned. -/
theorem claimC9_hash_reads_preexisting (fs : Fs) (base newBase idfl : String)
    (dt : Date) (A B : String)
    (hsrc : fsGet fs (base ++ "/" ++ idfl) = some A)
    (hdst : fsGet fs (getDateDirectory newBase dt ++ "/" ++ idfl) = some B)
    (hAB : A ≠ B) :
    ∃ p fs',
      moveFile fs base newBase idfl dt = some (p, fs') ∧
      p ≠ getDateDirectory newBase dt ++ "/" ++ idfl ∧
      getFileHash fs' base newBase idfl true dt = some B ∧
      fsGet fs' p = some A := by
  have hsrcne : ¬(base ++ "/" ++ idfl =
      getDateDirectory newBase dt ++ "/" ++ idfl) := by
    intro he
    rw [he, hdst] at hsrc
    exact hAB (Option.some.inj hsrc).symm
  have hex : fsExists fs (getDateDirectory newBase dt ++ "/" ++ idfl) = true := by
    unfold fsExists
    rw [hdst]
    rfl
  have hpfree : (fsPaths fs).contains
      (getUniqueFilename (fsPaths fs) (getDateDirectory newBase dt) idfl)
        = false :=
    (getUniqueFilename_spec (fsPaths fs) (getDateDirectory newBase dt) idfl).2.2
  have hpnotmem :
      getUniqueFilename (fsPaths fs) (getDateDirectory newBase dt) idfl
        ∉ fsPaths fs := by
    intro hmem
    rw [(contains_iff_mem _ _).mpr hmem] at hpfree
    cases hpfree
  have hpne : ¬(getUniqueFilename (fsPaths fs) (getDateDirectory newBase dt) idfl
      = getDateDirectory newBase dt ++ "/" ++ idfl) := by
    intro he
    exact hpnotmem (he ▸
      fsGet_mem_paths fs (getDateDirectory newBase dt ++ "/" ++ idfl) B hdst)
  refine ⟨getUniqueFilename (fsPaths fs) (getDateDirectory newBase dt) idfl,
    fsInsert (fsErase fs (base ++ "/" ++ idfl))
      (getUniqueFilename (fsPaths fs) (getDateDirectory newBase dt) idfl) A,
    ?_, hpne, ?_, ?_⟩
  · simp only [moveFile, hsrc, hex, if_true]
  · unfold getFileHash resolvePath
    simp only [if_true]
    rw [fsGet_fsInsert, if_neg (fun h => hpne h.symm), fsGet_fsErase,
      if_neg (fun h => hsrcne h.symm)]
    exact hdst
  · rw [fsGet_fsInsert, if_pos rfl]

/-- C9, witness: the concrete collision — `old/f` holds `"A"`,
`new/20240307/f` already holds `"B"` — yields a suffixed destination whose
post-move hash probe reads the pre-existing `"B"` while the relocated
content `"A"` sits at the suffixed path. -/
theorem claimC9_witness :
    ∃ p fs',
      moveFile [("old/f", "A"), ("new/20240307/f", "B")] "old" "new" "f"
          ⟨2024, 3, 7⟩ = some (p, fs') ∧
      p ≠ getDateDirectory "new" ⟨2024, 3, 7⟩ ++ "/" ++ "f" ∧
      getFileHash fs' "old" "new" "f" true ⟨2024, 3, 7⟩ = some "B" ∧
      fsGet fs' p = some "A" :=
  claimC9_hash_reads_preexisting
    [("old/f", "A"), ("new/20240307/f", "B")] "old" "new" "f" ⟨2024, 3, 7⟩
    "A" "B" (by decide) (by decide) (by decide)

/-- C10: a cap of exactly 0 is falsy in the loop's two `if max_files`
checks, so `migrate_all(max_files = 0)` runs identically to
`migrate_all(None)` — no cap at all; on a concrete catalog of three
unmoved records (batch size 1) it migrates all three, leaving zero unmoved
rows, rather than migrating zero records. -/
theorem claimC10_zero_cap_is_no_cap :
    (∀ (cfg : Config) (fuel : Nat) (s : MigState) (stats : MigrationStats)
        (now : Nat),
        migrateAllLoop cfg (some 0) fuel s stats now
          = migrateAllLoop cfg none fuel s stats now) ∧
    (migrateAll ⟨"old", "new", 1⟩ (some 0) 10
        ⟨[⟨"a", ⟨2024, 1, 1⟩, "f1", false, none⟩,
          ⟨"b", ⟨2024, 1, 2⟩, "f2", false, none⟩,
          ⟨"c", ⟨2024, 1, 2⟩, "f3", false, none⟩],
         [("old/a", "ca"), ("old/b", "cb"), ("old/c", "cc")]⟩ 7).2.processedFiles
      = 3 ∧
    ((migrateAll ⟨"old", "new", 1⟩ (some 0) 10
        ⟨[⟨"a", ⟨2024, 1, 1⟩, "f1", false, none⟩,
          ⟨"b", ⟨2024, 1, 2⟩, "f2", false, none⟩,
          ⟨"c", ⟨2024, 1, 2⟩, "f3", false, none⟩],
         [("old/a", "ca"), ("old/b", "cb"), ("old/c", "cc")]⟩ 7).1.table.filter
        (fun r => r.ismooved == false)).length = 0 := by
  refine ⟨?_, by decide, by decide⟩
  intro cfg fuel
  induction fuel with
  | zero => intro s stats now; rfl
  | succ f ih =>
      intro s stats now
      simp only [migrateAllLoop]
      have h0 : capTruthy (some 0) = false := rfl
      have hn : capTruthy none = false := rfl
      rw [h0, hn]
      simp only [Bool.false_and, Bool.false_eq_true, if_false]
      by_cases hz : ((migrateBatch cfg s stats cfg.batchSize now).1.1 == 0) = true
      · rw [if_pos hz, if_pos hz]
      · rw [if_neg hz, if_neg hz]
        exact ih _ _ _

end FileMigrate
